import Mathlib

/-!
Shallow embedding of the `fetch_tender_document` pipeline of the MTender
MCP server (`src/handlers/tools.ts`, `src/handlers/utils.ts`) together
with the axios client configuration (`src/api/mtender-client.ts`).
Strings are modelled as `String` / `List Char`; byte buffers as `List Nat`;
the event-driven response stream as a list of events.
-/

namespace MTender

/-- Character-list version of JavaScript `String.prototype.startsWith`:
`startsWithChars s pat` is true when `pat` is an initial segment of `s`. -/
def startsWithChars : List Char → List Char → Bool
  | _, [] => true
  | [], _ :: _ => false
  | c :: cs, p :: ps => c = p && startsWithChars cs ps

/-- Locate the first occurrence of `sep` in a character list, returning the
text before it and the text after it.  `none` when `sep` does not occur.
This is the scanning step underlying JavaScript `split` and `includes`. -/
def findSplit (sep : List Char) : List Char → Option (List Char × List Char)
  | [] => if sep = [] then some ([], []) else none
  | c :: rest =>
    if startsWithChars (c :: rest) sep then
      some ([], (c :: rest).drop sep.length)
    else
      match findSplit sep rest with
      | some (pre, post) => some (c :: pre, post)
      | none => none

/-- JavaScript `s.split(sep)[1]`: the text strictly between the first and
second occurrence of `sep` (to the end of the string when `sep` occurs
exactly once); `undefined` (here `none`) when `sep` does not occur. -/
def splitGet1 (sep s : List Char) : Option (List Char) :=
  match findSplit sep s with
  | none => none
  | some (_, post) =>
    match findSplit sep post with
    | none => some post
    | some (pre2, _) => some pre2

/-- JavaScript `String.prototype.includes` with a plain-string pattern. -/
def includesStr (s pat : String) : Bool :=
  (findSplit pat.data s.data).isSome

/-- The set of characters removed by JavaScript `String.prototype.trim`
(ECMAScript WhiteSpace plus LineTerminator). -/
def isJsWhitespace (c : Char) : Bool :=
  c = ' ' || c = '\t' || c = '\n' || c = '\r' ||
  c = Char.ofNat 0x0B || c = Char.ofNat 0x0C ||
  c = Char.ofNat 0xA0 || c = Char.ofNat 0xFEFF ||
  c = Char.ofNat 0x1680 || (0x2000 ≤ c.toNat && c.toNat ≤ 0x200A) ||
  c = Char.ofNat 0x2028 || c = Char.ofNat 0x2029 ||
  c = Char.ofNat 0x202F || c = Char.ofNat 0x205F || c = Char.ofNat 0x3000

/-- JavaScript `String.prototype.trim` on character lists: drop the longest
whitespace run from the front, then from the back. -/
def trimJS (cs : List Char) : List Char :=
  ((cs.dropWhile isJsWhitespace).reverse.dropWhile isJsWhitespace).reverse

/-- `text.replace(/\r\n/g, '\n')`: non-overlapping left-to-right replacement
of every CRLF pair by LF. -/
def crlfToLF : List Char → List Char
  | [] => []
  | [c] => [c]
  | a :: b :: rest =>
    if a = '\r' && b = '\n' then '\n' :: crlfToLF rest
    else a :: crlfToLF (b :: rest)

/-- Emit a pending run of `n` newline characters the way the greedy regex
`/\n{3,}/g` leaves it: runs of three or more collapse to exactly two. -/
def emitLF (n : Nat) : List Char :=
  if 3 ≤ n then ['\n', '\n'] else List.replicate n '\n'

/-- Accumulator pass for `text.replace(/\n{3,}/g, '\n\n')`: `n` counts the
newline characters seen immediately before the current position. -/
def collapseLFAux : List Char → Nat → List Char
  | [], n => emitLF n
  | c :: rest, n =>
    if c = '\n' then collapseLFAux rest (n + 1)
    else emitLF n ++ c :: collapseLFAux rest 0

/-- `text.replace(/\n{3,}/g, '\n\n')`: each maximal run of three or more LF
characters becomes exactly two. -/
def collapseLF (cs : List Char) : List Char :=
  collapseLFAux cs 0

/-- The cleaning chain of `fetch_tender_document`
(`.replace(/\r\n/g,'\n').replace(/\n{3,}/g,'\n\n').trim()`),
applied in the source's order. -/
def cleanText (s : String) : String :=
  String.mk (trimJS (collapseLF (crlfToLF s.data)))

/-- Reference collapser written independently of `collapseLFAux`: consume a
whole maximal newline run at a time with `takeWhile`/`dropWhile`. -/
def collapseRef (cs : List Char) : List Char :=
  match cs with
  | [] => []
  | c :: rest =>
    if c = '\n' then
      (if 3 ≤ 1 + (rest.takeWhile (fun x => x == '\n')).length then ['\n', '\n']
       else List.replicate (1 + (rest.takeWhile (fun x => x == '\n')).length) '\n')
        ++ collapseRef (rest.dropWhile (fun x => x == '\n'))
    else c :: collapseRef rest
  termination_by cs.length
  decreasing_by
    · simp only [List.length_cons]
      have := (List.dropWhile_suffix (l := rest) (fun x => x == '\n')).length_le
      omega
    · simp only [List.length_cons]
      omega

/-- Normalization exactly as the specification words it: CRLF to LF, then
blank-run capping (via the run-at-a-time reference collapser), then trim. -/
def specNormalize (s : String) : String :=
  String.mk (trimJS (collapseRef (crlfToLF s.data)))

/-- The ASCII apostrophe character (code point 39). -/
def apos : Char := Char.ofNat 39

/-- The separator of the first disposition split in the source,
the characters of `filename*=utf-8` followed by two apostrophes. -/
def extMarker : List Char := "filename*=utf-8".data ++ [apos, apos]

/-- The separator of the second disposition split, `filename=`. -/
def plainMarker : List Char := "filename=".data

/-- JavaScript `a || b` on the two split results: the left value is taken
unless it is `undefined` or the empty string (both falsy). -/
def jsOrStr (a b : Option (List Char)) : Option (List Char) :=
  match a with
  | some x => if x = [] then b else some x
  | none => b

/-- Filename extraction from the content-disposition header:
`disposition?.split("filename*=utf-8..")[1] ||
 disposition?.split("filename=")[1]?.replace(/"/g, '')`. -/
def parseFilename (disposition : Option String) : Option String :=
  (jsOrStr (disposition.bind fun d => splitGet1 extMarker d.data)
           (disposition.bind fun d =>
             (splitGet1 plainMarker d.data).map
               (fun cs => cs.filter (fun c => c != '"')))).map String.mk

/-- The trusted storage origin checked by the source,
`https://storage.mtender.gov.md/get/`. -/
def storeRoot : String := "https://storage.mtender.gov.md/get/"

/-- The URL validation actually performed by `fetch_tender_document`:
`documentUrl.startsWith("https://storage.mtender.gov.md/get/")`. -/
def validateUrl (url : String) : Bool :=
  startsWithChars url.data storeRoot.data

/-- A character of the regex class `\w` (ASCII letters, digits, underscore). -/
def isWordChar (c : Char) : Bool :=
  c.isAlphanum || c = '_'

/-- Full match of the tail of the README-documented URL regex:
the part after the storage origin must be of shape `[\w-]+-\d+`
with nothing trailing. -/
def matchesBody (rest : List Char) : Bool :=
  (List.range rest.length).any fun i =>
    (match rest.get? i with
     | some c => c == '-'
     | none => false) &&
    decide (0 < i) &&
    ((rest.take i).all fun c => isWordChar c || c == '-') &&
    decide (i + 1 < rest.length) &&
    ((rest.drop (i + 1)).all Char.isDigit)

/-- Modelled from the spec: full-string match of the trusted-store URL
pattern the claim states (and the repository README documents) —
the storage origin, then a word-character-and-hyphen segment, then a
hyphen and one or more digits, with nothing else trailing.  No function
in `src/` implements this pattern; the handler only checks the origin. -/
def urlPattern (url : String) : Bool :=
  startsWithChars url.data storeRoot.data &&
  matchesBody (url.data.drop storeRoot.data.length)

/-- An axios request configuration, restricted to the fields this
repository sets. `none` means the field is absent from the config object. -/
structure AxiosRequestConfig where
  method : Option String
  url : Option String
  baseURL : Option String
  timeout : Option Nat
  responseType : Option String

/-- The axios library default for `timeout`: `0`, meaning no timeout. -/
def axiosDefaultTimeoutMs : Nat := 0

/-- Milliseconds axios will wait for a response under a config; `0` means
it waits indefinitely. -/
def effectiveTimeoutMs (c : AxiosRequestConfig) : Nat :=
  c.timeout.getD axiosDefaultTimeoutMs

/-- The request configuration `fetch_tender_document` passes to `axios`:
method, url and responseType only — no timeout field. -/
def documentFetchConfig (u : String) : AxiosRequestConfig :=
  ⟨some "get", some u, none, none, some "stream"⟩

/-- The configuration of the shared API client created by
`axios.create` in `mtender-client.ts`: baseURL and a 30000 ms timeout. -/
def mtenderClientConfig : AxiosRequestConfig :=
  ⟨none, none, some "https://public.mtender.gov.md", some 30000, none⟩

/-- The MCP error codes this handler uses. -/
inductive McpCode
  | invalidParams
  | invalidRequest
  | internalError
deriving DecidableEq

/-- A JavaScript exception as classified by the handler's catch blocks:
a structured `McpError`, an error for which `axios.isAxiosError` is true,
or any other (unstructured) error. -/
inductive ThrownError
  | mcpError (code : McpCode) (msg : String)
  | axiosError (msg : String)
  | genericError (msg : String)
deriving DecidableEq

/-- An event emitted by the response stream: a data chunk, an error, or
the end-of-stream signal. -/
inductive StreamEvent
  | chunk (bytes : List Nat)
  | errorEv (e : ThrownError)
  | endEv
deriving DecidableEq

/-- Accumulator pass of `streamToBuffer`: collected chunks so far, then
the remaining events.  The promise settles at the first `error` or `end`
event; a stream that never emits either leaves it pending (`none`). -/
def streamToBufferAux (acc : List (List Nat)) :
    List StreamEvent → Option (Except ThrownError (List Nat))
  | [] => none
  | .chunk c :: rest => streamToBufferAux (acc ++ [c]) rest
  | .errorEv e :: _ => some (.error e)
  | .endEv :: _ => some (.ok acc.flatten)

/-- `streamToBuffer` from `src/handlers/utils.ts`: accumulate `data`
chunks, reject on `error`, resolve with the concatenation on `end`. -/
def streamToBuffer (events : List StreamEvent) :
    Option (Except ThrownError (List Nat)) :=
  streamToBufferAux [] events

/-- The extraction strategy picked by the content-type dispatch. -/
inductive Strategy
  | pdf
  | word
  | unsupported (ct : String)
deriving DecidableEq

/-- The content-type dispatch of `fetch_tender_document`:
exact match on `application/pdf`, else the two `includes` checks for the
Word family, else the unsupported-type failure path carrying the
offending content-type. -/
def selectStrategy (ct : String) : Strategy :=
  if ct = "application/pdf" then .pdf
  else if includesStr ct "msword" || includesStr ct "openxmlformats-officedocument" then .word
  else .unsupported ct

/-- The parts of the HTTP response the handler consumes: the two headers
and the body stream. -/
structure HttpResponse where
  contentType : String
  contentDisposition : Option String
  body : List StreamEvent

/-- Outcome of the awaited `axios(...)` call: a response whose headers
have arrived, or a rejection (an axios error with a message). -/
inductive FetchOutcome
  | ok (resp : HttpResponse)
  | failed (msg : String)

/-- The external collaborators of the pipeline: the HTTP client and the
two decoders (`pdfParse` and `mammoth.extractRawText`), each of which
either returns extracted text or throws. -/
structure Env where
  fetch : String → FetchOutcome
  pdfExtract : List Nat → Except ThrownError String
  wordExtract : List Nat → Except ThrownError String

/-- The inner catch block of `fetch_tender_document`: an error passing
`axios.isAxiosError` is replaced by a structured `McpError` with code
`InternalError`; every other error is rethrown unchanged. -/
def catchConvert : ThrownError → ThrownError
  | .axiosError msg => .mcpError .internalError ("Failed to fetch document: " ++ msg)
  | e => e

/-- The success payload of `fetch_tender_document`: normalized text plus
the metadata bundle. -/
structure DocumentResult where
  text : String
  filename : Option String
  contentType : String
  source : String
deriving DecidableEq

/-- One run of the handler: the settled outcome (`none` when the body
stream never settles), how many HTTP fetches were issued, and how many
decoder invocations were attempted. -/
structure RunResult where
  outcome : Option (Except ThrownError DocumentResult)
  fetchCalls : Nat
  extractCalls : Nat

/-- The `fetch_tender_document` handler (`tools.ts`): validate the URL
by origin, fetch with a streaming response, read the two headers, parse
the filename, dispatch on content type, collect the stream, decode,
clean the text, and convert axios errors in the catch block. -/
def fetchTenderDocument (env : Env) (documentUrl : String) : RunResult :=
  if ¬ validateUrl documentUrl then
    ⟨some (.error (.mcpError .invalidParams "Invalid MTender storage URL")), 0, 0⟩
  else
    match env.fetch documentUrl with
    | .failed msg => ⟨some (.error (catchConvert (.axiosError msg))), 1, 0⟩
    | .ok resp =>
      let filename := parseFilename resp.contentDisposition
      match selectStrategy resp.contentType with
      | .pdf =>
        match streamToBuffer resp.body with
        | none => ⟨none, 1, 0⟩
        | some (.error e) => ⟨some (.error (catchConvert e)), 1, 0⟩
        | some (.ok buf) =>
          match env.pdfExtract buf with
          | .error e => ⟨some (.error (catchConvert e)), 1, 1⟩
          | .ok text =>
            ⟨some (.ok ⟨cleanText text, filename, resp.contentType, documentUrl⟩), 1, 1⟩
      | .word =>
        match streamToBuffer resp.body with
        | none => ⟨none, 1, 0⟩
        | some (.error e) => ⟨some (.error (catchConvert e)), 1, 0⟩
        | some (.ok buf) =>
          match env.wordExtract buf with
          | .error e => ⟨some (.error (catchConvert e)), 1, 1⟩
          | .ok text =>
            ⟨some (.ok ⟨cleanText text, filename, resp.contentType, documentUrl⟩), 1, 1⟩
      | .unsupported ct =>
        ⟨some (.error (catchConvert
          (.mcpError .invalidRequest ("Unsupported document type: " ++ ct)))), 1, 0⟩

/-- Whether a character list contains three consecutive newline
characters anywhere; the normal-form invariant of the blank-run
collapser. -/
def hasTriple : List Char → Bool
  | a :: b :: c :: rest =>
    (a == '\n' && b == '\n' && c == '\n') || hasTriple (b :: c :: rest)
  | _ => false

/-- A test environment whose collaborators return fixed outcomes. -/
def stubEnv (f : FetchOutcome) (pdfR wordR : Except ThrownError String) : Env :=
  ⟨fun _ => f, fun _ => pdfR, fun _ => wordR⟩

/-- A content-disposition header carrying both a quoted plain filename
and the UTF-8 extended parameter for `report%20final.pdf`. -/
def c2header : String :=
  String.mk ("attachment; filename=\"plain.pdf\"; ".data
    ++ extMarker ++ "report%20final.pdf".data)

/-- A PDF response whose stream delivers one chunk and then ends. -/
def pdfResp : HttpResponse :=
  ⟨"application/pdf", none, [.chunk [37, 80, 68, 70], .endEv]⟩

end MTender

namespace MTender

theorem streamToBufferAux_chunks (chunks : List (List Nat)) (acc : List (List Nat))
    (tail : List StreamEvent) :
    streamToBufferAux acc (chunks.map StreamEvent.chunk ++ tail)
      = streamToBufferAux (acc ++ chunks) tail := by
  induction chunks generalizing acc with
  | nil => simp
  | cons c cs ih =>
    show streamToBufferAux (acc ++ [c]) (List.map StreamEvent.chunk cs ++ tail) = _
    rw [ih]
    simp [List.append_assoc]

/-- Claim C9: `streamToBuffer` resolves with exactly the concatenation of
the chunks delivered by the data events before the end event, in order;
with zero data events it resolves with the empty buffer. -/
theorem streamToBuffer_resolves_concat (chunks : List (List Nat))
    (rest : List StreamEvent) :
    streamToBuffer (chunks.map StreamEvent.chunk ++ StreamEvent.endEv :: rest)
        = some (.ok chunks.flatten) ∧
      streamToBuffer [StreamEvent.endEv] = some (.ok ([] : List Nat)) := by
  refine ⟨?_, rfl⟩
  rw [streamToBuffer, streamToBufferAux_chunks]
  simp [streamToBufferAux]

theorem streamToBufferAux_error (pre : List StreamEvent) (e : ThrownError)
    (rest : List StreamEvent) (acc : List (List Nat))
    (h : ∀ ev ∈ pre, ∃ c, ev = StreamEvent.chunk c) :
    streamToBufferAux acc (pre ++ StreamEvent.errorEv e :: rest)
      = some (.error e) := by
  induction pre generalizing acc with
  | nil => rfl
  | cons ev pre' ih =>
    obtain ⟨c, rfl⟩ := h ev (by simp)
    simpa [streamToBufferAux] using
      ih (acc ++ [c]) (fun x hx => h x (by simp [hx]))

/-- Claim C7: a stream that emits an error event before its end event makes
`streamToBuffer` reject with that same error; it never resolves with the
partially accumulated data. -/
theorem streamToBuffer_error_rejects (pre : List StreamEvent) (e : ThrownError)
    (rest : List StreamEvent)
    (h : ∀ ev ∈ pre, ∃ c, ev = StreamEvent.chunk c) :
    streamToBuffer (pre ++ StreamEvent.errorEv e :: rest) = some (.error e) :=
  streamToBufferAux_error pre e rest [] h

/-- Witness for C7 at a concrete stream: one data chunk, then an error,
then a late end event. -/
theorem streamToBuffer_error_rejects_witness :
    streamToBuffer [StreamEvent.chunk [1, 2],
        StreamEvent.errorEv (ThrownError.genericError "read ECONNRESET"),
        StreamEvent.endEv]
      = some (.error (ThrownError.genericError "read ECONNRESET")) :=
  streamToBuffer_error_rejects [StreamEvent.chunk [1, 2]]
    (ThrownError.genericError "read ECONNRESET") [StreamEvent.endEv]
    (by intro ev hev; simp only [List.mem_singleton] at hev; exact ⟨[1, 2], hev⟩)

end MTender

namespace MTender

/-- Claim C5: the dispatch selects the PDF strategy exactly on the exact
content-type `application/pdf`; otherwise the Word strategy exactly when
the content-type contains `msword` or contains
`openxmlformats-officedocument`; every other content-type yields the
unsupported-type failure carrying the offending string, and the pipeline
then errors out with that message attempting no extraction. -/
theorem selectStrategy_spec :
    (∀ ct : String,
      (selectStrategy ct = Strategy.pdf ↔ ct = "application/pdf") ∧
      (selectStrategy ct = Strategy.word ↔
        (ct ≠ "application/pdf" ∧
          (includesStr ct "msword" = true ∨
           includesStr ct "openxmlformats-officedocument" = true))) ∧
      (selectStrategy ct = Strategy.unsupported ct ↔
        (ct ≠ "application/pdf" ∧ includesStr ct "msword" = false ∧
         includesStr ct "openxmlformats-officedocument" = false))) ∧
    (∀ (env : Env) (u : String) (resp : HttpResponse) (ct : String),
      validateUrl u = true →
      env.fetch u = FetchOutcome.ok resp →
      selectStrategy resp.contentType = Strategy.unsupported ct →
      fetchTenderDocument env u =
        ⟨some (.error (.mcpError .invalidRequest
          ("Unsupported document type: " ++ ct))), 1, 0⟩) := by
  constructor
  · intro ct
    by_cases hpdf : ct = "application/pdf" <;>
      by_cases hms : includesStr ct "msword" = true <;>
      by_cases hox : includesStr ct "openxmlformats-officedocument" = true <;>
      simp_all [selectStrategy, Bool.or_eq_true]
  · intro env u resp ct hvalid hfetch hsel
    unfold fetchTenderDocument
    rw [if_neg (by simp [hvalid]), hfetch]
    simp only [hsel]
    rfl

/-- Witness for C5 at the concrete content-type `text/plain` with a
stubbed environment: the unsupported-type failure carries `text/plain`. -/
theorem selectStrategy_spec_witness :
    fetchTenderDocument
        (stubEnv (.ok ⟨"text/plain", none, [StreamEvent.endEv]⟩)
          (.ok "") (.ok ""))
        "https://storage.mtender.gov.md/get/doc-1"
      = ⟨some (.error (.mcpError .invalidRequest
          ("Unsupported document type: " ++ "text/plain"))), 1, 0⟩ :=
  selectStrategy_spec.2
    (stubEnv (.ok ⟨"text/plain", none, [StreamEvent.endEv]⟩) (.ok "") (.ok ""))
    "https://storage.mtender.gov.md/get/doc-1"
    ⟨"text/plain", none, [StreamEvent.endEv]⟩ "text/plain"
    (by decide) rfl (by decide)

end MTender

namespace MTender

/-- Claim C1 (code bug): the handler only checks the storage-origin
prefix, not the full README-documented pattern.  At the concrete URL
`https://storage.mtender.gov.md/get/abc-12/extra?x=1` — which has a
trailing path segment and a query string and therefore does not match
the pattern — the validation passes and a network fetch is issued,
while a well-formed URL of the documented shape does match the pattern. -/
theorem validateUrl_accepts_nonmatching :
    validateUrl "https://storage.mtender.gov.md/get/abc-12/extra?x=1" = true ∧
    urlPattern "https://storage.mtender.gov.md/get/abc-12/extra?x=1" = false ∧
    (fetchTenderDocument
        (stubEnv (.failed "refused") (.ok "") (.ok ""))
        "https://storage.mtender.gov.md/get/abc-12/extra?x=1").fetchCalls = 1 ∧
    urlPattern "https://storage.mtender.gov.md/get/abc-12" = true := by
  refine ⟨by decide, by decide, rfl, by decide⟩

/-- Claim C2 counterexample: with the UTF-8 extended disposition
parameter present, the handler keeps the raw percent-encoded substring
`report%20final.pdf`; it does not percent-decode to `report final.pdf`. -/
theorem parseFilename_not_percent_decoded :
    parseFilename (some c2header) = some "report%20final.pdf" ∧
    parseFilename (some c2header) ≠ some "report final.pdf" := by
  refine ⟨by decide, by decide⟩

/-- Claim C2 amended: whenever the extended-parameter split yields a
non-empty value, that raw (still percent-encoded) value is the filename,
in preference over any co-present plain `filename=` parameter. -/
theorem parseFilename_ext_preferred (d : String) (v : List Char)
    (h : splitGet1 extMarker d.data = some v) (hne : v ≠ []) :
    parseFilename (some d) = some (String.mk v) := by
  simp [parseFilename, jsOrStr, h, hne]

/-- Witness for the amended C2 at the concrete header that carries both
a quoted plain filename and the extended parameter. -/
theorem parseFilename_ext_preferred_witness :
    parseFilename (some c2header) = some (String.mk "report%20final.pdf".data) :=
  parseFilename_ext_preferred c2header "report%20final.pdf".data
    (by decide) (by decide)

/-- Claim C3 counterexample: the request configuration that
`fetch_tender_document` passes to `axios` carries no timeout field, so
the effective timeout is the axios default `0`, meaning the wait for the
response is not bounded. -/
theorem documentFetch_no_timeout :
    ¬ (0 < effectiveTimeoutMs
        (documentFetchConfig "https://storage.mtender.gov.md/get/doc-1")) := by
  decide

/-- Claim C3 amended: the document-store GET is issued with the axios
default of no timeout (effective timeout `0` for every URL); the fixed
30000 ms timeout is configured only on the shared MTender API client,
which `fetch_tender_document` does not use; an axios-reported transport
failure is converted to one structured internal error. -/
theorem documentFetch_timeout_amended :
    (∀ u : String, effectiveTimeoutMs (documentFetchConfig u) = 0) ∧
    mtenderClientConfig.timeout = some 30000 ∧
    (∀ (env : Env) (u m : String),
      validateUrl u = true →
      env.fetch u = FetchOutcome.failed m →
      fetchTenderDocument env u =
        ⟨some (.error (.mcpError .internalError
          ("Failed to fetch document: " ++ m))), 1, 0⟩) := by
  refine ⟨fun u => rfl, rfl, ?_⟩
  intro env u m hvalid hfetch
  unfold fetchTenderDocument
  rw [if_neg (by simp [hvalid]), hfetch]
  rfl

/-- Witness for the amended C3: a concrete connection failure surfaces
as the structured internal error. -/
theorem documentFetch_timeout_amended_witness :
    fetchTenderDocument (stubEnv (.failed "connect ECONNREFUSED") (.ok "") (.ok ""))
        "https://storage.mtender.gov.md/get/doc-1"
      = ⟨some (.error (.mcpError .internalError
          ("Failed to fetch document: " ++ "connect ECONNREFUSED"))), 1, 0⟩ :=
  documentFetch_timeout_amended.2.2
    (stubEnv (.failed "connect ECONNREFUSED") (.ok "") (.ok ""))
    "https://storage.mtender.gov.md/get/doc-1" "connect ECONNREFUSED"
    (by decide) rfl

end MTender

namespace MTender

theorem catchConvert_not_axios (e : ThrownError) :
    (∃ code msg, catchConvert e = ThrownError.mcpError code msg) ∨
    (∃ msg, catchConvert e = ThrownError.genericError msg) := by
  cases e with
  | mcpError code msg => exact .inl ⟨code, msg, rfl⟩
  | axiosError msg =>
    exact .inl ⟨.internalError, "Failed to fetch document: " ++ msg, rfl⟩
  | genericError msg => exact .inr ⟨msg, rfl⟩

/-- Claim C4 counterexample: a decoder-internal failure (here `pdf-parse`
throwing a generic error on a corrupt buffer) is rethrown unchanged by
the catch block, so it propagates as the original unstructured error
value rather than as a structured `McpError`. -/
theorem decoder_error_unstructured :
    (fetchTenderDocument
        (stubEnv (.ok pdfResp) (.error (.genericError "bad XRef entry")) (.ok ""))
        "https://storage.mtender.gov.md/get/doc-1").outcome
      = some (.error (.genericError "bad XRef entry")) := by
  rfl

/-- Claim C4 amended: every axios-reported failure (transport or HTTP) is
converted at the catch block into one structured `McpError`, and the
validation and unsupported-type failures are structured `McpError`s by
construction, but decoder-internal and other non-axios failures are
rethrown unchanged, so an error escaping the pipeline is either a
structured `McpError` or an unchanged generic (unstructured) error —
never a raw axios error, yet not always a structured value. -/
theorem pipeline_error_classification (env : Env) (u : String) (e : ThrownError)
    (h : (fetchTenderDocument env u).outcome = some (.error e)) :
    (∃ code msg, e = ThrownError.mcpError code msg) ∨
    (∃ msg, e = ThrownError.genericError msg) := by
  unfold fetchTenderDocument at h
  split at h
  · simp only [Option.some.injEq, Except.error.injEq] at h
    exact .inl ⟨.invalidParams, "Invalid MTender storage URL", h.symm⟩
  · split at h
    · simp only [Option.some.injEq, Except.error.injEq] at h
      exact h ▸ catchConvert_not_axios _
    · split at h
      all_goals
        first
        | (split at h
           · simp_all
           · simp only [Option.some.injEq, Except.error.injEq] at h
             exact h ▸ catchConvert_not_axios _
           · split at h
             · simp only [Option.some.injEq, Except.error.injEq] at h
               exact h ▸ catchConvert_not_axios _
             · simp_all)
        | (simp only [Option.some.injEq, Except.error.injEq] at h
           exact h ▸ catchConvert_not_axios _)

/-- Witness for the amended C4: applying the classification to the
concrete run in which the PDF decoder throws a generic error. -/
theorem pipeline_error_classification_witness :
    (∃ code msg, ThrownError.genericError "bad XRef entry"
        = ThrownError.mcpError code msg) ∨
    (∃ msg, ThrownError.genericError "bad XRef entry"
        = ThrownError.genericError msg) :=
  pipeline_error_classification
    (stubEnv (.ok pdfResp) (.error (.genericError "bad XRef entry")) (.ok ""))
    "https://storage.mtender.gov.md/get/doc-1"
    (ThrownError.genericError "bad XRef entry") (by rfl)

/-- Claim C10: with no content-disposition header, filename parsing does
not fail — the metadata filename is simply absent — and for a supported
content-type the pipeline still completes successfully. -/
theorem no_disposition_completes (env : Env) (u : String) (resp : HttpResponse)
    (buf : List Nat) (text : String)
    (hvalid : validateUrl u = true)
    (hfetch : env.fetch u = FetchOutcome.ok resp)
    (hdisp : resp.contentDisposition = none)
    (hsel : selectStrategy resp.contentType = Strategy.pdf ∨
            selectStrategy resp.contentType = Strategy.word)
    (hbody : streamToBuffer resp.body = some (.ok buf))
    (hpdf : env.pdfExtract buf = .ok text)
    (hword : env.wordExtract buf = .ok text) :
    fetchTenderDocument env u =
      ⟨some (.ok ⟨cleanText text, none, resp.contentType, u⟩), 1, 1⟩ := by
  unfold fetchTenderDocument
  rw [if_neg (by simp [hvalid]), hfetch]
  have hfn : parseFilename resp.contentDisposition = none := by
    rw [hdisp]; rfl
  rcases hsel with hsel | hsel
  · simp only [hfn, hsel, hbody, hpdf]
  · simp only [hfn, hsel, hbody, hword]

/-- Witness for C10: a concrete PDF response with no disposition header
completes with an absent filename. -/
theorem no_disposition_completes_witness :
    fetchTenderDocument
        (stubEnv (.ok pdfResp) (.ok "Tender text") (.ok "Tender text"))
        "https://storage.mtender.gov.md/get/doc-1"
      = ⟨some (.ok ⟨cleanText "Tender text", none, "application/pdf",
          "https://storage.mtender.gov.md/get/doc-1"⟩), 1, 1⟩ :=
  no_disposition_completes
    (stubEnv (.ok pdfResp) (.ok "Tender text") (.ok "Tender text"))
    "https://storage.mtender.gov.md/get/doc-1" pdfResp [37, 80, 68, 70]
    "Tender text" (by decide) rfl rfl (.inl (by decide)) (by rfl) rfl rfl

end MTender

namespace MTender

theorem takeWhile_replicate_nl (k : Nat) (l : List Char) :
    List.takeWhile (fun x => x == '\n') (List.replicate k '\n' ++ l)
      = List.replicate k '\n' ++ List.takeWhile (fun x => x == '\n') l := by
  induction k with
  | zero => simp
  | succ k ih => simp [List.replicate_succ, List.takeWhile_cons, ih]

theorem dropWhile_replicate_nl (k : Nat) (l : List Char) :
    List.dropWhile (fun x => x == '\n') (List.replicate k '\n' ++ l)
      = List.dropWhile (fun x => x == '\n') l := by
  induction k with
  | zero => simp
  | succ k ih => simp [List.replicate_succ, List.dropWhile_cons, ih]

theorem collapseRef_cons_ne (c : Char) (rest : List Char) (h : c ≠ '\n') :
    collapseRef (c :: rest) = c :: collapseRef rest := by
  rw [collapseRef.eq_def]
  simp [h]

theorem collapseRef_replicate (k : Nat) :
    collapseRef (List.replicate k '\n') = emitLF k := by
  cases k with
  | zero =>
    rw [collapseRef.eq_def]
    simp [emitLF]
  | succ k =>
    rw [List.replicate_succ, collapseRef.eq_def]
    have h1 : List.takeWhile (fun x => x == '\n') (List.replicate k '\n')
        = List.replicate k '\n' := by
      simp
    have h2 : List.dropWhile (fun x => x == '\n') (List.replicate k '\n')
        = ([] : List Char) := by
      simp
    simp only [if_pos rfl, h1, h2, List.length_replicate]
    rw [collapseRef.eq_def]
    simp [emitLF, Nat.add_comm]

theorem collapseRef_replicate_append (k : Nat) (c : Char) (tail : List Char)
    (h : c ≠ '\n') :
    collapseRef (List.replicate k '\n' ++ c :: tail)
      = emitLF k ++ collapseRef (c :: tail) := by
  cases k with
  | zero => simp [emitLF]
  | succ k =>
    rw [List.replicate_succ, List.cons_append, collapseRef.eq_def]
    have h1 : List.takeWhile (fun x => x == '\n') (List.replicate k '\n' ++ c :: tail)
        = List.replicate k '\n' := by
      rw [takeWhile_replicate_nl]
      simp [List.takeWhile_cons, h]
    have h2 : List.dropWhile (fun x => x == '\n') (List.replicate k '\n' ++ c :: tail)
        = c :: tail := by
      rw [dropWhile_replicate_nl]
      simp [List.dropWhile_cons, h]
    simp only [if_pos rfl, h1, h2, List.length_replicate]
    simp [emitLF, Nat.add_comm]

theorem collapseLFAux_eq_ref (cs : List Char) :
    ∀ n, collapseLFAux cs n = collapseRef (List.replicate n '\n' ++ cs) := by
  induction cs with
  | nil =>
    intro n
    show emitLF n = _
    rw [List.append_nil, collapseRef_replicate]
  | cons c rest ih =>
    intro n
    by_cases h : c = '\n'
    · subst h
      show collapseLFAux rest (n + 1) = _
      rw [ih (n + 1), List.replicate_succ']
      simp [List.append_assoc]
    · simp only [collapseLFAux, if_neg h]
      rw [ih 0]
      simp only [List.replicate, List.nil_append]
      rw [collapseRef_replicate_append n c rest h, collapseRef_cons_ne c rest h]

theorem collapseLF_eq_ref (cs : List Char) : collapseLF cs = collapseRef cs := by
  simpa using collapseLFAux_eq_ref cs 0

/-- Claim C6: the source's normalization chain coincides with the
reference normalizer that, in this order, replaces CRLF with LF,
collapses runs of three or more LFs to exactly two, and trims the whole
string; in particular it maps the spec's example to `Title`, one blank
line, `Body`. -/
theorem cleanText_spec :
    (∀ s : String, cleanText s = specNormalize s) ∧
    cleanText "Title\r\n\r\n\r\n\r\nBody\r\n" = "Title\n\nBody" := by
  refine ⟨fun s => ?_, by decide⟩
  unfold cleanText specNormalize
  rw [collapseLF_eq_ref]

end MTender

namespace MTender

theorem mem_of_mem_dropWhile (p : Char → Bool) (l : List Char) (c : Char)
    (h : c ∈ l.dropWhile p) : c ∈ l := by
  induction l with
  | nil => simp at h
  | cons a tl ih =>
    rw [List.dropWhile_cons] at h
    by_cases hp : p a = true
    · rw [if_pos hp] at h
      exact List.mem_cons_of_mem a (ih h)
    · rw [if_neg hp] at h
      exact h

theorem mem_trimJS (cs : List Char) (c : Char) (h : c ∈ trimJS cs) : c ∈ cs := by
  unfold trimJS at h
  rw [List.mem_reverse] at h
  have h1 := mem_of_mem_dropWhile _ _ _ h
  rw [List.mem_reverse] at h1
  exact mem_of_mem_dropWhile _ _ _ h1

theorem mem_emitLF (n : Nat) (c : Char) (h : c ∈ emitLF n) : c = '\n' := by
  unfold emitLF at h
  split at h
  · simpa using h
  · exact List.eq_of_mem_replicate h

theorem mem_collapseLFAux (cs : List Char) :
    ∀ n c, c ∈ collapseLFAux cs n → c = '\n' ∨ c ∈ cs := by
  induction cs with
  | nil =>
    intro n c h
    exact .inl (mem_emitLF n c h)
  | cons a rest ih =>
    intro n c h
    by_cases ha : a = '\n'
    · subst ha
      simp only [collapseLFAux, if_pos rfl] at h
      rcases ih (n + 1) c h with h1 | h1
      · exact .inl h1
      · exact .inr (List.mem_cons_of_mem _ h1)
    · simp only [collapseLFAux, if_neg ha] at h
      rcases List.mem_append.mp h with h1 | h1
      · exact .inl (mem_emitLF n c h1)
      · rw [List.mem_cons] at h1
        rcases h1 with rfl | h1
        · exact .inr (List.mem_cons_self c rest)
        · rcases ih 0 c h1 with h2 | h2
          · exact .inl h2
          · exact .inr (List.mem_cons_of_mem _ h2)

theorem mem_crlfToLF (cs : List Char) :
    ∀ c, c ∈ crlfToLF cs → c = '\n' ∨ c ∈ cs := by
  induction cs using crlfToLF.induct with
  | case1 => intro c h; simp [crlfToLF] at h
  | case2 d =>
    intro c h
    simp only [crlfToLF] at h
    exact .inr h
  | case3 a b rest hcond ih =>
    intro c h
    simp only [crlfToLF, if_pos hcond] at h
    rw [List.mem_cons] at h
    rcases h with rfl | h
    · exact .inl rfl
    · rcases ih c h with h1 | h1
      · exact .inl h1
      · exact .inr (by simp [h1])
  | case4 a b rest hcond ih =>
    intro c h
    simp only [crlfToLF, if_neg hcond] at h
    rw [List.mem_cons] at h
    rcases h with rfl | h
    · exact .inr (List.mem_cons_self c _)
    · rcases ih c h with h1 | h1
      · exact .inl h1
      · exact .inr (List.mem_cons_of_mem a h1)

theorem crlfToLF_of_no_cr (cs : List Char) :
    (∀ c ∈ cs, c ≠ '\r') → crlfToLF cs = cs := by
  induction cs using crlfToLF.induct with
  | case1 => intro _; rfl
  | case2 d => intro _; rfl
  | case3 a b rest hcond ih =>
    intro h
    exfalso
    rw [Bool.and_eq_true, decide_eq_true_iff, decide_eq_true_iff] at hcond
    exact h a (List.mem_cons_self a _) hcond.1
  | case4 a b rest hcond ih =>
    intro h
    simp only [crlfToLF, if_neg hcond]
    rw [ih (fun c hc => h c (List.mem_cons_of_mem a hc))]

end MTender

namespace MTender

theorem hasTriple_cons_of (a : Char) (t : List Char) (h : hasTriple t = true) :
    hasTriple (a :: t) = true := by
  match t with
  | [] => simp [hasTriple] at h
  | [b] => simp [hasTriple] at h
  | b :: c :: rest =>
    rw [show hasTriple (a :: b :: c :: rest)
        = ((a == '\n' && b == '\n' && c == '\n') || hasTriple (b :: c :: rest))
      from rfl]
    rw [h, Bool.or_true]

theorem hasTriple_append_right (xs ys : List Char) (h : hasTriple ys = true) :
    hasTriple (xs ++ ys) = true := by
  induction xs with
  | nil => simpa using h
  | cons a tl ih => exact hasTriple_cons_of a (tl ++ ys) ih

theorem hasTriple_append_left (xs ys : List Char) :
    hasTriple xs = true → hasTriple (xs ++ ys) = true := by
  induction xs with
  | nil => intro h; simp [hasTriple] at h
  | cons a tl ih =>
    intro h
    match tl, ih, h with
    | [], _, h => simp [hasTriple] at h
    | [b], _, h => simp [hasTriple] at h
    | b :: c :: rest, ih, h =>
      rw [show hasTriple (a :: b :: c :: rest)
          = ((a == '\n' && b == '\n' && c == '\n') || hasTriple (b :: c :: rest))
        from rfl] at h
      rw [show (a :: b :: c :: rest) ++ ys = a :: ((b :: c :: rest) ++ ys) from rfl,
        show hasTriple (a :: (b :: c :: rest ++ ys))
          = ((a == '\n' && b == '\n' && c == '\n') || hasTriple (b :: c :: rest ++ ys))
        from rfl]
      rcases Bool.or_eq_true_iff.mp h with h1 | h1
      · rw [h1, Bool.true_or]
      · rw [ih h1, Bool.or_true]

theorem hasTriple_dropWhile (p : Char → Bool) (l : List Char)
    (h : hasTriple l = false) : hasTriple (l.dropWhile p) = false := by
  by_contra hc
  rw [Bool.not_eq_false] at hc
  obtain ⟨t, ht⟩ := List.dropWhile_suffix (l := l) p
  have h2 := hasTriple_append_right t _ hc
  rw [ht, h] at h2
  exact Bool.false_ne_true h2

theorem hasTriple_rtrim (p : Char → Bool) (l : List Char)
    (h : hasTriple l = false) :
    hasTriple ((l.reverse.dropWhile p).reverse) = false := by
  by_contra hc
  rw [Bool.not_eq_false] at hc
  obtain ⟨t, ht⟩ := List.dropWhile_suffix (l := l.reverse) p
  have hl : (l.reverse.dropWhile p).reverse ++ t.reverse = l := by
    rw [← List.reverse_append, ht, List.reverse_reverse]
  have h2 := hasTriple_append_left _ t.reverse hc
  rw [hl, h] at h2
  exact Bool.false_ne_true h2

theorem hasTriple_trimJS (cs : List Char) (h : hasTriple cs = false) :
    hasTriple (trimJS cs) = false := by
  unfold trimJS
  exact hasTriple_rtrim _ _ (hasTriple_dropWhile _ _ h)

theorem hasTriple_emitLF (n : Nat) : hasTriple (emitLF n) = false := by
  unfold emitLF
  split
  · rfl
  · rename_i hn
    have h2 : n ≤ 2 := by omega
    interval_cases n <;> rfl

theorem hasTriple_cons_ne (c : Char) (t : List Char) (hc : c ≠ '\n') :
    hasTriple (c :: t) = hasTriple t := by
  match t with
  | [] => rfl
  | [b] => rfl
  | b :: d :: rest =>
    rw [show hasTriple (c :: b :: d :: rest)
        = ((c == '\n' && b == '\n' && d == '\n') || hasTriple (b :: d :: rest))
      from rfl]
    have : (c == '\n') = false := by simpa using hc
    rw [this, Bool.false_and, Bool.false_and, Bool.false_or]

theorem hasTriple_nl_cons (c : Char) (t : List Char) (hc : c ≠ '\n') :
    hasTriple ('\n' :: c :: t) = hasTriple (c :: t) := by
  match t with
  | [] => rfl
  | d :: rest =>
    rw [show hasTriple ('\n' :: c :: d :: rest)
        = (('\n' == '\n' && c == '\n' && d == '\n') || hasTriple (c :: d :: rest))
      from rfl]
    have : (c == '\n') = false := by simpa using hc
    rw [this]
    simp

theorem hasTriple_emit_append (n : Nat) (c : Char) (t : List Char)
    (hc : c ≠ '\n') (h : hasTriple t = false) :
    hasTriple (emitLF n ++ c :: t) = false := by
  unfold emitLF
  split
  · rw [show (['\n', '\n'] ++ c :: t) = '\n' :: '\n' :: c :: t from rfl]
    rw [show hasTriple ('\n' :: '\n' :: c :: t)
        = (('\n' == '\n' && '\n' == '\n' && c == '\n') || hasTriple ('\n' :: c :: t))
      from rfl]
    have hcf : (c == '\n') = false := by simpa using hc
    rw [hcf, hasTriple_nl_cons c t hc, hasTriple_cons_ne c t hc, h]
    simp
  · rename_i hn
    have h2 : n ≤ 2 := by omega
    interval_cases n
    · rw [show (List.replicate 0 '\n' ++ c :: t) = c :: t from rfl,
        hasTriple_cons_ne c t hc]
      exact h
    · rw [show (List.replicate 1 '\n' ++ c :: t) = '\n' :: c :: t from rfl,
        hasTriple_nl_cons c t hc, hasTriple_cons_ne c t hc]
      exact h
    · rw [show (List.replicate 2 '\n' ++ c :: t) = '\n' :: '\n' :: c :: t from rfl]
      rw [show hasTriple ('\n' :: '\n' :: c :: t)
          = (('\n' == '\n' && '\n' == '\n' && c == '\n') || hasTriple ('\n' :: c :: t))
        from rfl]
      have hcf : (c == '\n') = false := by simpa using hc
      rw [hcf, hasTriple_nl_cons c t hc, hasTriple_cons_ne c t hc, h]
      simp

theorem hasTriple_collapseAux (cs : List Char) :
    ∀ n, hasTriple (collapseLFAux cs n) = false := by
  induction cs with
  | nil => intro n; exact hasTriple_emitLF n
  | cons a rest ih =>
    intro n
    by_cases ha : a = '\n'
    · subst ha
      simp only [collapseLFAux, if_pos rfl]
      exact ih (n + 1)
    · simp only [collapseLFAux, if_neg ha]
      exact hasTriple_emit_append n a _ ha (ih 0)

end MTender

namespace MTender

theorem collapseAux_fix (cs : List Char) :
    ∀ n, n ≤ 2 → hasTriple (List.replicate n '\n' ++ cs) = false →
      collapseLFAux cs n = List.replicate n '\n' ++ cs := by
  induction cs with
  | nil =>
    intro n hn _
    show emitLF n = _
    unfold emitLF
    rw [if_neg (by omega), List.append_nil]
  | cons a rest ih =>
    intro n hn h
    by_cases ha : a = '\n'
    · subst ha
      have hrep : List.replicate n '\n' ++ '\n' :: rest
          = List.replicate (n + 1) '\n' ++ rest := by
        rw [List.replicate_succ']
        simp
      have hn1 : n + 1 ≤ 2 := by
        by_contra hgt
        have hn2 : n = 2 := by omega
        subst hn2
        rw [show (List.replicate 2 '\n' ++ '\n' :: rest)
            = '\n' :: '\n' :: '\n' :: rest from rfl] at h
        rw [show hasTriple ('\n' :: '\n' :: '\n' :: rest)
            = (('\n' == '\n' && '\n' == '\n' && '\n' == '\n')
                || hasTriple ('\n' :: '\n' :: rest)) from rfl] at h
        simp at h
      simp only [collapseLFAux, if_pos rfl]
      rw [ih (n + 1) hn1 (by rwa [hrep] at h), hrep]
      simp
    · simp only [collapseLFAux, if_neg ha]
      have hrest : hasTriple rest = false := by
        by_contra hc
        rw [Bool.not_eq_false] at hc
        have h2 := hasTriple_append_right (List.replicate n '\n' ++ [a]) rest hc
        rw [List.append_assoc, List.singleton_append, h] at h2
        exact Bool.false_ne_true h2
      rw [ih 0 (by omega) (by simpa using hrest)]
      unfold emitLF
      rw [if_neg (by omega)]
      simp

theorem dropWhile_idem (p : Char → Bool) (l : List Char) :
    (l.dropWhile p).dropWhile p = l.dropWhile p := by
  induction l with
  | nil => rfl
  | cons a tl ih =>
    by_cases hp : p a = true
    · rw [List.dropWhile_cons, if_pos hp, ih]
    · rw [List.dropWhile_cons, if_neg hp, List.dropWhile_cons, if_neg hp]

theorem rtrim_rtrim (p : Char → Bool) (y : List Char) :
    ((((y.reverse.dropWhile p).reverse).reverse).dropWhile p).reverse
      = (y.reverse.dropWhile p).reverse := by
  rw [List.reverse_reverse, dropWhile_idem]

theorem ltrim_of_rtrim (p : Char → Bool) (y : List Char)
    (hy : y.dropWhile p = y) :
    ((y.reverse.dropWhile p).reverse).dropWhile p
      = (y.reverse.dropWhile p).reverse := by
  obtain ⟨t, ht⟩ := List.dropWhile_suffix (l := y.reverse) p
  have hz : (y.reverse.dropWhile p).reverse ++ t.reverse = y := by
    rw [← List.reverse_append, ht, List.reverse_reverse]
  cases hzz : (y.reverse.dropWhile p).reverse with
  | nil => simp
  | cons a t' =>
    have hya : y = a :: (t' ++ t.reverse) := by
      rw [← hz, hzz, List.cons_append]
    have hpa : p a = false := by
      by_cases hp : p a = true
      · exfalso
        have hdrop := hy
        rw [hya, List.dropWhile_cons, if_pos hp] at hdrop
        have hlen := congrArg List.length hdrop
        have hle := (List.dropWhile_suffix (l := t' ++ t.reverse) p).length_le
        simp only [List.length_cons] at hlen
        omega
      · simpa using hp
    rw [List.dropWhile_cons, if_neg (by simp [hpa])]

theorem trimJS_idem (cs : List Char) : trimJS (trimJS cs) = trimJS cs := by
  have h1 := ltrim_of_rtrim isJsWhitespace (cs.dropWhile isJsWhitespace)
    (dropWhile_idem _ _)
  unfold trimJS
  rw [h1]
  exact rtrim_rtrim isJsWhitespace (cs.dropWhile isJsWhitespace)

/-- Claim C8 counterexample: normalization is not idempotent — the input
`a` CR CR LF `b` normalizes to `a` CR LF `b`, which a second
normalization changes again (the freshly adjacent CR LF pair collapses). -/
theorem cleanText_not_idempotent :
    cleanText (cleanText "a\r\r\nb") ≠ cleanText "a\r\r\nb" := by decide

/-- Claim C8 amended: on strings containing no carriage-return character
the normalization is idempotent; idempotence fails in general only
because replacing a CRLF pair can make a preceding CR newly adjacent to
a LF, which only another pass would collapse. -/
theorem cleanText_idem_no_cr (s : String) (h : ∀ c ∈ s.data, c ≠ '\r') :
    cleanText (cleanText s) = cleanText s := by
  have key : ∀ (l : List Char), (∀ c ∈ l, c ≠ '\r') →
      trimJS (collapseLF (crlfToLF (trimJS (collapseLF (crlfToLF l)))))
        = trimJS (collapseLF (crlfToLF l)) := by
    intro l hl
    have hnr : ∀ c ∈ trimJS (collapseLF (crlfToLF l)), c ≠ '\r' := by
      intro c hc hcr
      subst hcr
      have hc2 := mem_trimJS _ _ hc
      rcases mem_collapseLFAux (crlfToLF l) 0 '\r' hc2 with h3 | h3
      · exact absurd h3 (by decide)
      · rcases mem_crlfToLF l '\r' h3 with h4 | h4
        · exact absurd h4 (by decide)
        · exact hl _ h4 rfl
    rw [crlfToLF_of_no_cr _ hnr]
    have ht : hasTriple (trimJS (collapseLF (crlfToLF l))) = false :=
      hasTriple_trimJS _ (hasTriple_collapseAux (crlfToLF l) 0)
    rw [show collapseLF (trimJS (collapseLF (crlfToLF l)))
        = trimJS (collapseLF (crlfToLF l)) from
      collapseAux_fix _ 0 (by omega) (by simpa using ht)]
    exact trimJS_idem _
  exact congrArg String.mk (key s.data h)

/-- Witness for the amended C8 at a concrete carriage-return-free string
with an over-long blank run and trailing whitespace. -/
theorem cleanText_idem_no_cr_witness :
    cleanText (cleanText "Title\n\n\n\nBody ") = cleanText "Title\n\n\n\nBody " :=
  cleanText_idem_no_cr "Title\n\n\n\nBody " (by decide)

end MTender
